import Mathlib

/-!
# Verification of the CNE_AI table-extraction and export pipeline

This file is a shallow embedding, in Lean 4, of the core of the `CNE_AI`
repository: the DOCX-table extraction, cell normalisation, CSV serialisation
and per-operator export code found in `cne_ai/docx_tables.py` and
`scripts/export_operator_outputs.py`.

Modelling conventions:
* Python strings are modelled as `List Char` (cell text, CSV bytes, file
  names being manipulated character-wise); Lean `String` is used for path
  segments and basenames, converting through `String.data` where the code
  inspects characters.
* A filesystem path is a list of segments (`Path := List String`).
* File writes are modelled as a trace of `(path, content)` pairs, produced
  in the order the Python code performs them.
* Fallible code is modelled with `Except`; each raise site of the Python
  code becomes an error constructor, and an error result is produced before
  any write of the corresponding call would have happened, mirroring the
  statement order of the source.
-/

namespace CNE

/-- A table cell: Python `str`, modelled as a list of characters. -/
abbrev Cell := List Char

/-- A table row: ordered cells. -/
abbrev Row := List Cell

/-- A table: ordered rows. -/
abbrev Table := List Row

/-- A filesystem path as a list of segments. -/
abbrev Path := List String

/-- File contents (text written to a CSV file or archive entry). -/
abbrev Content := List Char

/-! ## Cell normalisation (`_normalise_cell`) -/

/-- Python `str.replace("\r\n", "\n")`: left-to-right, non-overlapping
replacement of every CRLF pair by a single LF. -/
def pyReplaceCRLF : List Char → List Char
  | [] => []
  | [c] => [c]
  | c :: d :: rest =>
    if c = '\r' ∧ d = '\n' then '\n' :: pyReplaceCRLF rest
    else c :: pyReplaceCRLF (d :: rest)

/-- The whitespace class stripped by Python `str.strip()` (ASCII range). -/
def pyIsSpace (c : Char) : Bool :=
  c = ' ' || c = '\t' || c = '\n' || c = '\r' || c = '\x0b' || c = '\x0c'

/-- Python `str.strip()`: drop leading and trailing whitespace. -/
def pyStrip (l : List Char) : List Char :=
  ((l.dropWhile pyIsSpace).reverse.dropWhile pyIsSpace).reverse

/-- `_normalise_cell` from `cne_ai/docx_tables.py`: `None` becomes the empty
string; otherwise CRLF pairs are rewritten to LF and the result is stripped. -/
def normaliseCell (text : Option Cell) : Cell :=
  match text with
  | none => []
  | some s => pyStrip (pyReplaceCRLF s)

/-- `_normalise_cell` restated on Lean `String`s for readability. -/
def normaliseCellStr (text : Option String) : String :=
  String.mk (normaliseCell (text.map String.data))

/-! ## Table extraction (`extract_tables`)

The DOCX parsing itself (python-docx's `Document`) is an external library;
what the repository's `extract_tables` adds is the per-cell normalisation and
the filtering of vacuous tables.  A parsed document is therefore modelled as
the list of its tables, each a list of rows of raw (optional) cell texts. -/

/-- A document as exposed by the external DOCX library: tables of rows of raw
cell texts (`cell.text`, possibly absent). -/
abbrev RawDocument := List (List (List (Option Cell)))

/-- Normalise every cell of one raw table, preserving row and column order. -/
def normaliseTable (t : List (List (Option Cell))) : Table :=
  t.map (fun row => row.map normaliseCell)

/-- The filter condition of `extract_tables`:
`any(any(cell for cell in row) for row in rows)` — at least one cell is a
non-empty string. -/
def tableHasContent (rows : Table) : Bool :=
  rows.any (fun row => row.any (fun cell => !cell.isEmpty))

/-- The table-accumulation loop of `extract_tables` in
`cne_ai/docx_tables.py`: normalise each table's cells and append it to the
accumulator only when some cell is non-empty. -/
def extractTables (doc : RawDocument) : List Table :=
  doc.foldl
    (fun tables t =>
      let rows := normaliseTable t
      if tableHasContent rows then tables ++ [rows] else tables)
    []

/-! ## CSV serialisation (`csv.writer` with the `excel` dialect)

`export_tables_to_csv` writes each table with `csv.writer(handle)` on a file
opened with `newline=""`; the `excel` dialect delimits fields with `,`,
quotes with `"` on demand (a field containing the delimiter, the quote
character, or a line-terminator character is quoted and embedded quotes are
doubled; a record consisting of a single empty field is quoted so that it is
not mistaken for a blank line), and terminates records with CRLF. -/

/-- Does the `excel` dialect have to quote this field? -/
def needsQuote (f : Cell) : Bool :=
  f.any (fun c => c = ',' || c = '"' || c = '\r' || c = '\n')

/-- Double every quote character of a quoted field's body. -/
def escapeQuotes : Cell → List Char
  | [] => []
  | c :: cs => if c = '"' then '"' :: '"' :: escapeQuotes cs else c :: escapeQuotes cs

/-- Serialise one field, quoting on demand. -/
def writeField (f : Cell) : List Char :=
  if needsQuote f then '"' :: (escapeQuotes f ++ ['"']) else f

/-- Serialise the fields of one record, comma-separated, no terminator. -/
def writeRowBody : Row → List Char
  | [] => []
  | [f] => writeField f
  | f :: fs => writeField f ++ ',' :: writeRowBody fs

/-- Serialise one record with its CRLF terminator.  A record that is exactly
one empty field is written as a quoted empty field, as CPython's writer
does, so that it stays distinguishable from an empty record. -/
def writeRow (r : Row) : List Char :=
  (match r with
   | [[]] => ['"', '"']
   | _ => writeRowBody r) ++ ['\r', '\n']

/-- Serialise a whole table: the concatenation of its records. -/
def writeTable (t : Table) : Content :=
  (t.map writeRow).flatten

/-! ### A standard CSV reader for the same dialect -/

/-- Read the body of a quoted field (the opening quote already consumed):
a doubled quote is an escaped quote character, a single quote closes the
field.  `none` on an unterminated field. -/
def parseQuoted : List Char → Option (Cell × List Char)
  | [] => none
  | [c] => if c = '"' then some ([], []) else none
  | c :: d :: rest =>
    if c = '"' then
      if d = '"' then (parseQuoted rest).map (fun p => ('"' :: p.1, p.2))
      else some ([], d :: rest)
    else (parseQuoted (d :: rest)).map (fun p => (c :: p.1, p.2))

/-- Read an unquoted field: everything up to the next delimiter or
record terminator. -/
def takeUnquoted : List Char → Cell × List Char
  | [] => ([], [])
  | c :: rest =>
    if c = ',' || c = '\r' || c = '\n' then ([], c :: rest)
    else
      let p := takeUnquoted rest
      (c :: p.1, p.2)

/-- Read one field, quoted or not. -/
def parseOneField (s : List Char) : Option (Cell × List Char) :=
  match s with
  | [] => some ([], [])
  | c :: rest => if c = '"' then parseQuoted rest else some (takeUnquoted (c :: rest))

/-- Read the comma-separated fields of one record up to and including its
CRLF terminator (or the end of input).  Fuelled to make termination
manifest; one unit of fuel is spent per field. -/
def parseFields : Nat → List Char → Option (List Cell × List Char)
  | 0, _ => none
  | fuel + 1, s =>
    match parseOneField s with
    | none => none
    | some (f, rest) =>
      match rest with
      | ',' :: rest2 => (parseFields fuel rest2).map (fun p => (f :: p.1, p.2))
      | '\r' :: '\n' :: rest2 => some ([f], rest2)
      | [] => some ([f], [])
      | _ => none

/-- Read one record: a blank line is an empty record, anything else is a
non-empty field list. -/
def parseRecord (s : List Char) : Option (List Cell × List Char) :=
  match s with
  | '\r' :: '\n' :: rest => some ([], rest)
  | _ => parseFields (s.length + 1) s

/-- Read records until the input (or the fuel) is exhausted. -/
def parseTable : Nat → List Char → Table
  | 0, _ => []
  | _, [] => []
  | fuel + 1, s =>
    match parseRecord s with
    | none => []
    | some (r, rest) => r :: parseTable fuel rest

/-- Parse a whole CSV text into its table of records. -/
def parseCSV (s : List Char) : Table :=
  parseTable (s.length + 1) s

/-! ## CSV export (`export_tables_to_csv`)

The Python function makes the output directory, then loops over
`enumerate(tables, start=1)`, writing `<basename>_<index>.csv` for each table
and accumulating the written paths, which it returns. -/

/-- One write-trace entry: the path of a produced file and its content. -/
abbrev FileEntry := Path × Content

/-- The file name `<basename>_<index>.csv`. -/
def csvName (basename : String) (index : Nat) : String :=
  basename ++ "_" ++ toString index ++ ".csv"

/-- The write loop of `export_tables_to_csv`, starting at index `i`:
each table becomes one file under `outputDir`. -/
def exportFiles (outputDir : Path) (basename : String) : Nat → List Table → List FileEntry
  | _, [] => []
  | i, t :: ts =>
    (outputDir ++ [csvName basename i], writeTable t) :: exportFiles outputDir basename (i + 1) ts

/-- The path-accumulation of the same loop (`exported_paths.append(...)`). -/
def exportPaths (outputDir : Path) (basename : String) : Nat → List Table → List Path
  | _, [] => []
  | i, _ :: ts => (outputDir ++ [csvName basename i]) :: exportPaths outputDir basename (i + 1) ts

/-- `export_tables_to_csv` from `cne_ai/docx_tables.py`: the files written
(first component) and the list of paths the function returns (second
component). -/
def exportTablesToCsv (tables : List Table) (outputDir : Path) (basename : String) :
    List FileEntry × List Path :=
  (exportFiles outputDir basename 1 tables, exportPaths outputDir basename 1 tables)

/-! ## Per-operator export (`scripts/export_operator_outputs.py`) -/

/-- The operator registry of the script: key and CSV basename, in
registration order. -/
def OPERATORS : List (String × String) :=
  [("A", "operator_a_table"), ("B", "operator_b_table")]

/-- `_export_to_directories`, generalised over the operator registry the
loop iterates (the script instantiates it with `OPERATORS`): for each
operator write every table under `destination / "Operador_<key>"`.  The
first component is the write trace; the second is the function's Python
return value, which is `None` (the annotation is `-> None` and the results
of `export_tables_to_csv` are discarded). -/
def exportToDirectories (ops : List (String × String)) (tables : List Table)
    (destination : Path) : List FileEntry × Option (List Path) :=
  (ops.flatMap (fun ob =>
    (exportTablesToCsv tables (destination ++ ["Operador_" ++ ob.1]) ob.2).1),
   none)

/-! ### `pathlib` suffix handling, used by `_export_to_zip` -/

/-- `str.rfind`: index of the last occurrence of `c`, if any. -/
def pyRFind (c : Char) (l : List Char) : Option Nat :=
  (l.reverse.findIdx? (· = c)).map (fun j => l.length - 1 - j)

/-- `pathlib.PurePath.suffix` on a final path component: the substring from
the last dot, provided the dot is neither the first nor the last
character; otherwise the empty string. -/
def pySuffix (name : List Char) : List Char :=
  match pyRFind '.' name with
  | none => []
  | some i => if 0 < i ∧ i < name.length - 1 then name.drop i else []

/-- `pathlib.PurePath.with_suffix` on a final path component: append the new
suffix when the name has none, otherwise replace the old one. -/
def pyWithSuffix (name : List Char) (suffix : List Char) : List Char :=
  let old := pySuffix name
  if old = [] then name ++ suffix else name.take (name.length - old.length) ++ suffix

/-- The archive-name fixup at the top of `_export_to_zip`:
`if zip_path.suffix != ".zip": zip_path = zip_path.with_suffix(".zip")`. -/
def zipTargetName (name : List Char) : List Char :=
  if pySuffix name = ".zip".data then name else pyWithSuffix name ".zip".data

/-- Does a file name match the glob `*.csv`? -/
def isCsvFileName (s : String) : Bool :=
  decide (".csv".data <:+ s.data)

/-- `_export_to_zip` after the name fixup: run the directory export into a
fresh scratch root, then collect every `*.csv` file below that root (the
`rglob("*.csv")` walk) as archive entries named by their root-relative
paths.  Returns the final archive name and the entry trace. -/
def exportToZip (ops : List (String × String)) (tables : List Table)
    (zipName : List Char) : List Char × List FileEntry :=
  (zipTargetName zipName,
   ((exportToDirectories ops tables []).1).filter
     (fun e => match e.1.getLast? with
       | some n => isCsvFileName n
       | none => false))

/-! ## The CLI driver (`main` of `scripts/export_operator_outputs.py`) -/

/-- What the export destination path currently is on disk. -/
inductive TargetState
  | absent
  | isDirectory
  | isRegularFile
deriving DecidableEq

/-- The raise sites of `main` (and of the code it calls before writing):
the input DOCX is missing, the document has no meaningful tables, or the
directory-mode destination is an existing file. -/
inductive ExportError
  | inputNotFound
  | noTables
  | destinationIsFile
deriving DecidableEq

/-- The body of `main` after table extraction, generalised over the operator
registry: reject an empty table list, then either build the archive or check
the destination and export to directories.  An `Except.error` is produced by
a `raise` that the source executes before any file or directory of that call
is created; the `Except.ok` payload is the trace of files (or archive
entries) written. -/
def mainExport (ops : List (String × String)) (tables : List Table)
    (useZip : Bool) (output : Path) (target : TargetState) :
    Except ExportError (List FileEntry) :=
  if tables.isEmpty then .error .noTables
  else if useZip then
    .ok (exportToZip ops tables (output.getLast?.getD "").data).2
  else if target = TargetState.isRegularFile then .error .destinationIsFile
  else .ok (exportToDirectories ops tables output).1

/-! ## Lemmas about normalisation -/

theorem pyReplaceCRLF_of_no_crlf :
    ∀ l : List Char, ¬ (['\r', '\n'] <:+: l) → pyReplaceCRLF l = l := by
  intro l
  induction l using pyReplaceCRLF.induct with
  | case1 => intro _; rfl
  | case2 c => intro _; rfl
  | case3 c d rest hcd ih =>
    intro h
    exfalso
    exact h (hcd.1 ▸ hcd.2 ▸ ⟨[], rest, rfl⟩)
  | case4 c d rest hcd ih =>
    intro h
    have hsub : ¬ (['\r', '\n'] <:+: d :: rest) := by
      rintro ⟨s, t, hst⟩
      exact h ⟨c :: s, t, by simp [← hst]⟩
    simp only [pyReplaceCRLF, if_neg hcd]
    exact congrArg (c :: ·) (ih hsub)

theorem pyStrip_infix (l : List Char) : pyStrip l <:+: l := by
  refine ⟨l.takeWhile pyIsSpace,
    ((l.dropWhile pyIsSpace).reverse.takeWhile pyIsSpace).reverse, ?_⟩
  have h2 : pyStrip l ++ ((l.dropWhile pyIsSpace).reverse.takeWhile pyIsSpace).reverse
      = l.dropWhile pyIsSpace := by
    rw [pyStrip, ← List.reverse_append, List.takeWhile_append_dropWhile,
      List.reverse_reverse]
  rw [List.append_assoc, h2, List.takeWhile_append_dropWhile]

/-! ## Lemmas about extraction -/

theorem extractTables_foldl (doc : RawDocument) :
    ∀ acc : List Table,
      doc.foldl
        (fun tables t =>
          let rows := normaliseTable t
          if tableHasContent rows then tables ++ [rows] else tables)
        acc
      = acc ++ (doc.map normaliseTable).filter tableHasContent := by
  induction doc with
  | nil => intro acc; simp
  | cons t doc ih =>
    intro acc
    by_cases h : tableHasContent (normaliseTable t)
    · simp only [List.foldl_cons, List.map_cons, List.filter_cons, h, if_pos h, ih]
      simp
    · simp only [List.foldl_cons, List.map_cons, List.filter_cons, h, if_neg h, ih]
      simp

theorem extractTables_eq_filter (doc : RawDocument) :
    extractTables doc = (doc.map normaliseTable).filter tableHasContent :=
  (extractTables_foldl doc []).trans (by simp)

/-! ## Lemmas about CSV serialisation -/

/-- What may legally follow a serialised field: nothing, a delimiter, or the
record terminator. -/
def sepStart : List Char → Prop
  | [] => True
  | c :: _ => c = ',' ∨ c = '\r'

theorem parseQuoted_escape (f : Cell) (rest : List Char) (h : sepStart rest) :
    parseQuoted (escapeQuotes f ++ ('"' :: rest)) = some (f, rest) := by
  induction f with
  | nil =>
    cases rest with
    | nil => rfl
    | cons c cs =>
      have hc : ¬ c = '"' := by
        rcases h with h | h <;> simp [h]
      simp [escapeQuotes, parseQuoted, hc]
  | cons a f ih =>
    by_cases ha : a = '"'
    · subst ha
      simp [escapeQuotes, parseQuoted, ih]
    · rcases he : escapeQuotes f ++ ('"' :: rest) with _ | ⟨d, tail⟩
      · exact absurd he (by simp)
      · simp only [escapeQuotes, if_neg ha, List.cons_append, he, parseQuoted,
          if_neg ha]
        rw [← he, ih]
        rfl

theorem takeUnquoted_append (f : Cell) (rest : List Char)
    (hf : needsQuote f = false) (h : sepStart rest) :
    takeUnquoted (f ++ rest) = (f, rest) := by
  induction f with
  | nil =>
    cases rest with
    | nil => rfl
    | cons c cs =>
      have hc : (c = ',' || c = '\r' || c = '\n') = true := by
        rcases h with h | h <;> simp [h]
      simp [takeUnquoted, hc]
  | cons a f ih =>
    simp only [needsQuote, List.any_cons, Bool.or_eq_false_iff,
      decide_eq_false_iff_not] at hf
    have ha : (a = ',' || a = '\r' || a = '\n') = false := by
      simp [hf.1.1.1.1, hf.1.1.2, hf.1.2]
    have hf' : needsQuote f = false := by
      simpa [needsQuote] using hf.2
    simp [takeUnquoted, ha, ih hf']

theorem parseOneField_write (f : Cell) (rest : List Char) (h : sepStart rest) :
    parseOneField (writeField f ++ rest) = some (f, rest) := by
  rcases hq : needsQuote f with _ | _
  · -- unquoted
    have hfq : writeField f = f := by simp [writeField, hq]
    rw [hfq]
    cases f with
    | nil =>
      cases rest with
      | nil => rfl
      | cons c cs =>
        have hc : ¬ c = '"' := by
          rcases h with h | h <;> simp [h]
        have hstop : (c = ',' || c = '\r' || c = '\n') = true := by
          rcases h with h | h <;> simp [h]
        simp [parseOneField, hc, takeUnquoted, hstop]
    | cons a f' =>
      have ha : ¬ a = '"' := by
        simp only [needsQuote, List.any_cons, Bool.or_eq_false_iff,
          decide_eq_false_iff_not] at hq
        exact hq.1.1.1.2
      simp only [List.cons_append, parseOneField, if_neg ha]
      rw [← List.cons_append, takeUnquoted_append _ _ hq h]
  · -- quoted
    have hfq : writeField f ++ rest = '"' :: (escapeQuotes f ++ ('"' :: rest)) := by
      simp [writeField, hq]
    rw [hfq]
    simp only [parseOneField, if_pos rfl]
    exact parseQuoted_escape f rest h

theorem parseFields_write (r : Row) :
    ∀ (fuel : Nat) (rest : List Char), r ≠ [] → r.length ≤ fuel →
      parseFields fuel (writeRowBody r ++ ('\r' :: '\n' :: rest)) = some (r, rest) := by
  induction r with
  | nil => intro fuel rest h _; exact absurd rfl h
  | cons f r' ih =>
    intro fuel rest _ hlen
    cases fuel with
    | zero => simp at hlen
    | succ k =>
      cases r' with
      | nil =>
        simp only [writeRowBody]
        simp only [parseFields,
          parseOneField_write f ('\r' :: '\n' :: rest) (Or.inr rfl)]
      | cons g r'' =>
        simp only [writeRowBody, List.cons_append, List.append_assoc]
        simp only [parseFields,
          parseOneField_write f
            (',' :: (writeRowBody (g :: r'') ++ ('\r' :: '\n' :: rest)))
            (Or.inl rfl)]
        rw [ih k rest (by simp) (by simpa using Nat.le_of_succ_le_succ hlen)]
        rfl

theorem length_le_writeRowBody (r : Row) : r.length ≤ (writeRowBody r).length + 1 := by
  induction r with
  | nil => simp
  | cons f r' ih =>
    cases r' with
    | nil => simp [writeRowBody]
    | cons g r'' =>
      simp only [writeRowBody, List.length_append, List.length_cons] at *
      omega

theorem writeField_head (f : Cell) :
    writeField f = [] ∨ ∃ c t, writeField f = c :: t ∧ c ≠ '\r' := by
  rcases hq : needsQuote f with _ | _
  · cases f with
    | nil => exact Or.inl (by simp [writeField, hq])
    | cons a f' =>
      refine Or.inr ⟨a, f', by simp [writeField, hq], ?_⟩
      simp only [needsQuote, List.any_cons, Bool.or_eq_false_iff,
        decide_eq_false_iff_not] at hq
      exact hq.1.1.2
  · exact Or.inr ⟨'"', escapeQuotes f ++ ['"'], by simp [writeField, hq], by decide⟩

theorem writeRowBody_head (r : Row) (hnil : r ≠ []) (hone : r ≠ [[]]) :
    ∃ c t, writeRowBody r = c :: t ∧ c ≠ '\r' := by
  cases r with
  | nil => exact absurd rfl hnil
  | cons f r' =>
    cases r' with
    | nil =>
      have hf : f ≠ [] := fun h => hone (by rw [h])
      rcases writeField_head f with h | ⟨c, t, hct, hc⟩
      · exfalso
        apply hf
        by_cases hq : needsQuote f = true
        · simp [writeField, hq] at h
        · simpa [writeField, hq] using h
      · exact ⟨c, t, by simpa [writeRowBody] using hct, hc⟩
    | cons g r'' =>
      rcases writeField_head f with h | ⟨c, t, hct, hc⟩
      · exact ⟨',', writeRowBody (g :: r''), by simp [writeRowBody, h], by decide⟩
      · exact ⟨c, t ++ ',' :: writeRowBody (g :: r''), by simp [writeRowBody, hct], hc⟩

theorem writeRow_eq_of_ne (r : Row) (h : r ≠ [[]]) :
    writeRow r = writeRowBody r ++ ['\r', '\n'] := by
  unfold writeRow
  split
  · exact absurd rfl h
  · rfl

theorem parseRecord_not_blank {c : Char} (tail : List Char) (hc : c ≠ '\r') :
    parseRecord (c :: tail) = parseFields ((c :: tail).length + 1) (c :: tail) := by
  unfold parseRecord
  split
  · next heq =>
    injection heq with h1 _
    exact absurd h1 hc
  · rfl

theorem parseRecord_writeRow (r : Row) (rest : List Char) :
    parseRecord (writeRow r ++ rest) = some (r, rest) := by
  by_cases hone : r = [[]]
  · subst hone
    show parseRecord ('"' :: '"' :: '\r' :: '\n' :: rest) = some ([[]], rest)
    rw [parseRecord_not_blank _ (by decide)]
    simp [parseFields, parseOneField, parseQuoted]
  · cases r with
    | nil => rfl
    | cons f r' =>
      rw [writeRow_eq_of_ne _ hone, List.append_assoc]
      obtain ⟨c, t, hbody, hc⟩ := writeRowBody_head (f :: r') (by simp) hone
      rw [hbody, List.cons_append, parseRecord_not_blank _ hc,
        ← List.cons_append, ← hbody]
      refine parseFields_write (f :: r') _ _ (by simp) ?_
      have h1 := length_le_writeRowBody (f :: r')
      have h2 : (writeRowBody (f :: r') ++ ('\r' :: '\n' :: rest)).length
          = (writeRowBody (f :: r')).length + (2 + rest.length) := by
        rw [List.length_append]
        simp only [List.length_cons]
        omega
      simp only [List.cons_append, List.nil_append] at *
      omega

theorem writeRow_ne_nil (r : Row) : writeRow r ≠ [] := by
  unfold writeRow
  intro h
  simp at h

theorem parseTable_write (T : Table) :
    ∀ fuel, T.length ≤ fuel → parseTable fuel (writeTable T) = T := by
  induction T with
  | nil => intro fuel _; cases fuel <;> rfl
  | cons r T' ih =>
    intro fuel hlen
    cases fuel with
    | zero => simp at hlen
    | succ k =>
      have hw : writeTable (r :: T') = writeRow r ++ writeTable T' := by
        simp [writeTable]
      rw [hw]
      obtain ⟨x, xs, hx⟩ : ∃ x xs, writeRow r = x :: xs := by
        cases hr : writeRow r with
        | nil => exact absurd hr (writeRow_ne_nil r)
        | cons x xs => exact ⟨x, xs, rfl⟩
      rw [hx, List.cons_append]
      have hrec : parseRecord (x :: (xs ++ writeTable T')) = some (r, writeTable T') := by
        rw [← List.cons_append, ← hx]
        exact parseRecord_writeRow r (writeTable T')
      simp only [parseTable, hrec]
      rw [ih k (Nat.le_of_succ_le_succ hlen)]

theorem length_le_writeTable (T : Table) : T.length ≤ (writeTable T).length := by
  induction T with
  | nil => simp [writeTable]
  | cons r T' ih =>
    have hw : writeTable (r :: T') = writeRow r ++ writeTable T' := by
      simp [writeTable]
    rw [hw]
    have h2 : 1 ≤ (writeRow r).length := by
      cases hr : writeRow r with
      | nil => exact absurd hr (writeRow_ne_nil r)
      | cons x xs => simp
    simp only [List.length_append, List.length_cons]
    omega

/-! ## Lemmas about the export layer -/

theorem exportFiles_map_fst (dir : Path) (base : String) :
    ∀ (i : Nat) (ts : List Table),
      (exportFiles dir base i ts).map Prod.fst = exportPaths dir base i ts := by
  intro i ts
  induction ts generalizing i with
  | nil => rfl
  | cons t ts ih => simp [exportFiles, exportPaths, ih]

theorem exportFiles_map_snd (dir : Path) (base : String) :
    ∀ (i : Nat) (ts : List Table),
      (exportFiles dir base i ts).map Prod.snd = ts.map writeTable := by
  intro i ts
  induction ts generalizing i with
  | nil => rfl
  | cons t ts ih => simp [exportFiles, ih]

theorem exportFiles_length (dir : Path) (base : String) :
    ∀ (i : Nat) (ts : List Table), (exportFiles dir base i ts).length = ts.length := by
  intro i ts
  induction ts generalizing i with
  | nil => rfl
  | cons t ts ih => simp [exportFiles, ih]

theorem exportPaths_eq_range (dir : Path) (base : String) :
    ∀ (i : Nat) (ts : List Table),
      exportPaths dir base i ts
        = (List.range ts.length).map (fun j => dir ++ [csvName base (i + j)]) := by
  intro i ts
  induction ts generalizing i with
  | nil => rfl
  | cons t ts ih =>
    simp only [exportPaths, List.length_cons, List.range_succ_eq_map, List.map_cons,
      List.map_map, ih]
    refine congrArg₂ _ (by simp) ?_
    apply List.map_congr_left
    intro j _
    simp only [Function.comp]
    have : i + 1 + j = i + (j + 1) := by omega
    rw [this]

theorem exportFiles_shift (dest p : Path) (base : String) :
    ∀ (i : Nat) (ts : List Table),
      exportFiles (dest ++ p) base i ts
        = (exportFiles p base i ts).map (fun e => (dest ++ e.1, e.2)) := by
  intro i ts
  induction ts generalizing i with
  | nil => rfl
  | cons t ts ih => simp [exportFiles, ih, List.append_assoc]

theorem exportToDirectories_shift (ops : List (String × String)) (tables : List Table)
    (dest : Path) :
    (exportToDirectories ops tables dest).1
      = ((exportToDirectories ops tables []).1).map (fun e => (dest ++ e.1, e.2)) := by
  simp only [exportToDirectories, List.map_flatMap]
  refine congrArg _ (funext fun ob => ?_)
  simp only [exportTablesToCsv, List.nil_append]
  exact exportFiles_shift dest ["Operador_" ++ ob.1] ob.2 1 tables

theorem exportToDirectories_length (ops : List (String × String)) (tables : List Table)
    (dest : Path) :
    ((exportToDirectories ops tables dest).1).length = ops.length * tables.length := by
  induction ops with
  | nil => simp [exportToDirectories]
  | cons ob ops ih =>
    simp only [exportToDirectories, List.flatMap_cons, List.length_append,
      List.length_cons] at *
    rw [ih]
    simp only [exportTablesToCsv, exportFiles_length]
    ring

theorem isCsvFileName_csvName (base : String) (n : Nat) :
    isCsvFileName (csvName base n) = true := by
  simp only [isCsvFileName, csvName, decide_eq_true_eq]
  have h : (base ++ "_" ++ toString n ++ ".csv").data
      = (base ++ "_" ++ toString n).data ++ ".csv".data := by
    simp [String.data_append]
  rw [h]
  exact List.suffix_append _ _

theorem exportFiles_last_csv (dir : Path) (base : String) :
    ∀ (i : Nat) (ts : List Table) (e : FileEntry), e ∈ exportFiles dir base i ts →
      ∃ n, e.1.getLast? = some (csvName base n) := by
  intro i ts
  induction ts generalizing i with
  | nil => intro e he; simp [exportFiles] at he
  | cons t ts ih =>
    intro e he
    rcases List.mem_cons.mp he with h | h
    · exact ⟨i, by rw [h]; exact List.getLast?_concat _⟩
    · exact ih (i + 1) e h

theorem zipEntries_eq_scratch (ops : List (String × String)) (tables : List Table)
    (zipName : List Char) :
    (exportToZip ops tables zipName).2 = (exportToDirectories ops tables []).1 := by
  unfold exportToZip
  apply List.filter_eq_self.mpr
  intro e he
  simp only [exportToDirectories, List.mem_flatMap] at he
  obtain ⟨ob, _, hmem⟩ := he
  obtain ⟨n, hlast⟩ := exportFiles_last_csv _ _ _ tables e hmem
  rw [hlast]
  exact isCsvFileName_csvName ob.2 n

/-! ## Lemmas about the archive-name fixup -/

theorem pySuffix_stem (name : List Char) :
    name.take (name.length - (pySuffix name).length) ++ pySuffix name = name := by
  unfold pySuffix
  cases hfind : pyRFind '.' name with
  | none => simp
  | some i =>
    by_cases hc : 0 < i ∧ i < name.length - 1
    · simp only [if_pos hc]
      have hi : i ≤ name.length := by omega
      rw [List.length_drop, Nat.sub_sub_self hi, List.take_append_drop]
    · simp [if_neg hc]

theorem zipTargetName_cases (name : List Char) :
    (pySuffix name = ".zip".data → zipTargetName name = name) ∧
    (pySuffix name = [] → zipTargetName name = name ++ ".zip".data) ∧
    (pySuffix name ≠ [] → pySuffix name ≠ ".zip".data →
      zipTargetName name
        = name.take (name.length - (pySuffix name).length) ++ ".zip".data) := by
  refine ⟨fun h => by simp [zipTargetName, h], fun h => ?_, fun h1 h2 => ?_⟩
  · have hne : pySuffix name ≠ ".zip".data := by
      rw [h]; decide
    simp [zipTargetName, hne, pyWithSuffix, h]
  · simp [zipTargetName, h2, pyWithSuffix, h1]

theorem exportToDirectories_paths (ops : List (String × String)) (tables : List Table)
    (dest : Path) :
    ((exportToDirectories ops tables dest).1).map Prod.fst
      = ops.flatMap (fun ob => (List.range tables.length).map
          (fun j => dest ++ ["Operador_" ++ ob.1, csvName ob.2 (1 + j)])) := by
  simp only [exportToDirectories, List.map_flatMap]
  refine congrArg _ (funext fun ob => ?_)
  simp only [exportTablesToCsv]
  rw [exportFiles_map_fst, exportPaths_eq_range]
  apply List.map_congr_left
  intro j _
  simp [List.append_assoc]

/-! ## The claims -/

/-- C1 (counterexample): with operators `A ↦ opA`, `B ↦ opB` and two tables,
the paths written by directory-mode export are not the claimed
`Operator_<key>/...` paths — the code spells the subdirectory
`Operador_<key>`. -/
theorem c1_directory_layout_cex :
    ((exportToDirectories [("A", "opA"), ("B", "opB")] [[[['x']]], [[['y']]]] []).1).map
        Prod.fst
      ≠ [["Operator_A", "opA_1.csv"], ["Operator_A", "opA_2.csv"],
         ["Operator_B", "opB_1.csv"], ["Operator_B", "opB_2.csv"]] := by
  decide

/-- C1 (amended): for every operator registry and table sequence,
directory-mode export writes, per operator in registry order, exactly one CSV
per table named `<basename>_<n>.csv` (n counted from 1 in table order) under
the subdirectory `Operador_<key>` of the destination root, and no other
files; in particular with operators `A ↦ opA`, `B ↦ opB` and 2 tables the
produced paths are exactly `Operador_A/opA_1.csv`, `Operador_A/opA_2.csv`,
`Operador_B/opB_1.csv`, `Operador_B/opB_2.csv`. -/
theorem c1_directory_layout (ops : List (String × String)) (dest : Path)
    (tables : List Table) (t1 t2 : Table) :
    ((exportToDirectories ops tables dest).1).map Prod.fst
      = ops.flatMap (fun ob => (List.range tables.length).map
          (fun j => dest ++ ["Operador_" ++ ob.1, csvName ob.2 (1 + j)])) ∧
    ((exportToDirectories [("A", "opA"), ("B", "opB")] [t1, t2] dest).1).map Prod.fst
      = [dest ++ ["Operador_A", "opA_1.csv"], dest ++ ["Operador_A", "opA_2.csv"],
         dest ++ ["Operador_B", "opB_1.csv"], dest ++ ["Operador_B", "opB_2.csv"]] :=
  ⟨exportToDirectories_paths ops tables dest, by
    rw [exportToDirectories_paths]
    simp only [List.flatMap_cons, List.flatMap_nil, List.length_cons, List.length_nil,
      List.range_succ, List.range_zero, List.map_cons, List.map_nil, List.map_append,
      List.append_nil, List.nil_append, List.cons_append, List.cons.injEq]
    refine ⟨congrArg _ (by decide), congrArg _ (by decide), congrArg _ (by decide),
      congrArg _ (by decide), trivial⟩⟩

/-- C2 (counterexample): for the archive path `out.tar`, whose suffix is not
`.zip`, the code does not append `.zip` (which would give `out.tar.zip`); it
replaces the old suffix, producing `out.zip`. -/
theorem c2_zip_suffix_cex :
    pySuffix "out.tar".data ≠ ".zip".data ∧
    zipTargetName "out.tar".data ≠ "out.tar".data ++ ".zip".data ∧
    zipTargetName "out.tar".data = "out.zip".data := by
  decide

/-- C2 (amended): a caller-supplied archive name whose suffix is already
`.zip` is used unchanged; a name with no suffix at all gets `.zip` appended;
a name with a different suffix has that suffix replaced by `.zip` (only the
stem before the old suffix is preserved).  The last conjunct identifies the
preserved stem: stem ++ old suffix is the original name. -/
theorem c2_zip_suffix_amended (name : List Char) :
    (pySuffix name = ".zip".data → zipTargetName name = name) ∧
    (pySuffix name = [] → zipTargetName name = name ++ ".zip".data) ∧
    (pySuffix name ≠ [] → pySuffix name ≠ ".zip".data →
      zipTargetName name
        = name.take (name.length - (pySuffix name).length) ++ ".zip".data) ∧
    name.take (name.length - (pySuffix name).length) ++ pySuffix name = name :=
  ⟨(zipTargetName_cases name).1, (zipTargetName_cases name).2.1,
   (zipTargetName_cases name).2.2, pySuffix_stem name⟩

/-- Witness for the amended C2, applying it on concrete names for each of
its three hypotheses. -/
theorem c2_zip_suffix_amended_witness :
    zipTargetName "out.zip".data = "out.zip".data ∧
    zipTargetName "archive".data = "archive".data ++ ".zip".data ∧
    zipTargetName "out.tar".data
      = ("out.tar".data).take
          ("out.tar".data.length - (pySuffix "out.tar".data).length)
        ++ ".zip".data :=
  ⟨(c2_zip_suffix_amended "out.zip".data).1 (by decide),
   (c2_zip_suffix_amended "archive".data).2.1 (by decide),
   (c2_zip_suffix_amended "out.tar".data).2.2.1 (by decide) (by decide)⟩

/-- C3 (counterexample): at a concrete non-empty input the directory-mode
orchestrator `_export_to_directories` returns no path list at all — its
Python return value is `None` (`-> None`; the lists returned by
`export_tables_to_csv` are discarded). -/
theorem c3_return_value_cex :
    (exportToDirectories [("A", "opA")] [[[['x']]]] []).2 = none := rfl

/-- C3 (amended): the full list of written file paths is returned by
`export_tables_to_csv` (one path per table, in write order), not by
`_export_to_directories`, which performs one such call per operator
(writing `ops.length * tables.length` files) and returns `None`. -/
theorem c3_written_paths (tables : List Table) (dir : Path) (base : String) :
    (exportTablesToCsv tables dir base).2
        = ((exportTablesToCsv tables dir base).1).map Prod.fst ∧
    ((exportTablesToCsv tables dir base).2).length = tables.length ∧
    (∀ (ops : List (String × String)) (dest : Path),
      (exportToDirectories ops tables dest).2 = none) ∧
    (∀ (ops : List (String × String)) (dest : Path),
      ((exportToDirectories ops tables dest).1).length
        = ops.length * tables.length) := by
  refine ⟨(exportFiles_map_fst dir base 1 tables).symm, ?_, fun ops dest => rfl,
    fun ops dest => exportToDirectories_length ops tables dest⟩
  show (exportPaths dir base 1 tables).length = tables.length
  rw [← exportFiles_map_fst, List.length_map, exportFiles_length]

/-- C4: `extract_tables` returns exactly the (cell-normalised) tables that
have at least one non-empty cell, preserving document order and inner
row/column order; its output count is at most the source count, and every
returned table has a non-empty cell.  A table of all-empty cells is dropped,
a table with one non-empty cell is kept. -/
theorem c4_extract_tables (doc : RawDocument) :
    extractTables doc = (doc.map normaliseTable).filter tableHasContent ∧
    (extractTables doc).length ≤ doc.length ∧
    (∀ t ∈ extractTables doc, ∃ row ∈ t, ∃ c ∈ row, c ≠ ([] : Cell)) ∧
    extractTables [[[some [], some []], [some [], some []]]] = [] ∧
    extractTables [[[some [], some []], [some [], ['x']]]]
      = [[[[], []], [[], ['x']]]] := by
  refine ⟨extractTables_eq_filter doc, ?_, ?_, by decide, by decide⟩
  · rw [extractTables_eq_filter]
    calc ((doc.map normaliseTable).filter tableHasContent).length
        ≤ (doc.map normaliseTable).length := List.length_filter_le _ _
      _ = doc.length := List.length_map _ _
  · intro t ht
    rw [extractTables_eq_filter] at ht
    have hcont := (List.mem_filter.mp ht).2
    simp only [tableHasContent, List.any_eq_true] at hcont
    obtain ⟨row, hrow, c, hc, hne⟩ := hcont
    refine ⟨row, hrow, c, hc, ?_⟩
    simpa using hne

/-- Witness for C4, applying it to a one-table document and discharging the
membership hypothesis of its non-empty-cell conjunct on the resulting
table. -/
theorem c4_extract_tables_witness :
    ∃ row ∈ [[([] : Cell), ['x']]], ∃ c ∈ row, c ≠ ([] : Cell) :=
  (c4_extract_tables [[[some [], some ['x']]]]).2.2.1 [[[], ['x']]] (by decide)

/-- C5: the cell normaliser maps `None` to the empty string, rewrites every
CRLF to LF and strips leading/trailing whitespace, and does nothing else: a
string without CRLF passes the replacement unchanged, and stripping only
removes characters at the two ends (the result is an infix of its input). -/
theorem c5_normalise_cell :
    normaliseCellStr none = "" ∧
    normaliseCellStr (some "a\r\nb") = "a\nb" ∧
    normaliseCellStr (some "  x  ") = "x" ∧
    (∀ l : List Char, (['\r', '\n'] <:+: l) ∨ pyReplaceCRLF l = l) ∧
    (∀ l : List Char, pyStrip l <:+: l) := by
  refine ⟨rfl, by decide, by decide, fun l => ?_, pyStrip_infix⟩
  by_cases h : ['\r', '\n'] <:+: l
  · exact Or.inl h
  · exact Or.inr (pyReplaceCRLF_of_no_crlf l h)

/-- C6: with an empty tables sequence, export fails with the empty-input
error (`ValueError` in the source, `EmptyInputError` in the spec) for every
operator registry, mode and destination state, before any file or archive is
produced (the error result carries no write). -/
theorem c6_empty_input_rejected (ops : List (String × String)) (useZip : Bool)
    (output : Path) (target : TargetState) :
    mainExport ops [] useZip output target = .error .noTables := rfl

/-- C7: the archive entries of archive-mode export are exactly the files
that directory-mode export of the same inputs writes — same scratch-relative
names, byte-identical contents; and directory-mode export into any
destination produces those same relative files prefixed by the
destination. -/
theorem c7_archive_matches_directory (ops : List (String × String))
    (tables : List Table) (zipName : List Char) :
    (exportToZip ops tables zipName).2 = (exportToDirectories ops tables []).1 ∧
    ∀ dest : Path, (exportToDirectories ops tables dest).1
        = ((exportToDirectories ops tables []).1).map (fun e => (dest ++ e.1, e.2)) :=
  ⟨zipEntries_eq_scratch ops tables zipName,
   fun dest => exportToDirectories_shift ops tables dest⟩

/-- C8: writing any table with the CSV writer and re-parsing the produced
text with a reader of the same dialect reconstructs the table exactly,
whatever the cells contain (commas, quotes, newlines included). -/
theorem c8_csv_round_trip (T : Table) : parseCSV (writeTable T) = T := by
  have h := length_le_writeTable T
  exact parseTable_write T ((writeTable T).length + 1) (by omega)

/-- C9: a directory-mode export whose non-empty tables would otherwise be
written fails with the invalid-target error (`ValueError` in the source,
`InvalidTargetError` in the spec) when the destination exists and is not a
directory, before any write. -/
theorem c9_invalid_target_rejected (ops : List (String × String)) (t : Table)
    (ts : List Table) (output : Path) :
    mainExport ops (t :: ts) false output TargetState.isRegularFile
      = .error .destinationIsFile := rfl

/-- C10: every operator receives CSVs of the same complete table sequence:
for any operator key and basename, the per-operator file contents are the
serialisations of all the tables in order (hence byte-identical across
operators) and the per-operator file count equals the table count, in
directory mode and in archive mode alike. -/
theorem c10_operators_identical (tables : List Table) (dest : Path) (k b : String) :
    ((exportTablesToCsv tables (dest ++ ["Operador_" ++ k]) b).1).map Prod.snd
        = tables.map writeTable ∧
    ((exportTablesToCsv tables (dest ++ ["Operador_" ++ k]) b).1).length
        = tables.length ∧
    (∀ ops : List (String × String),
      ((exportToDirectories ops tables dest).1).map Prod.snd
        = ops.flatMap (fun _ => tables.map writeTable)) ∧
    (∀ (ops : List (String × String)) (zname : List Char),
      ((exportToZip ops tables zname).2).map Prod.snd
        = ops.flatMap (fun _ => tables.map writeTable)) := by
  refine ⟨exportFiles_map_snd _ _ 1 tables, exportFiles_length _ _ 1 tables, ?_, ?_⟩
  · intro ops
    simp only [exportToDirectories, List.map_flatMap]
    exact congrArg _ (funext fun ob => exportFiles_map_snd _ _ 1 tables)
  · intro ops zname
    rw [zipEntries_eq_scratch]
    simp only [exportToDirectories, List.map_flatMap]
    exact congrArg _ (funext fun ob => exportFiles_map_snd _ _ 1 tables)

end CNE
